import Mathlib

/-!
# Verification of the incremental scroll-and-collect harvester of `scraper.js`

This file is a shallow embedding of the list-harvesting core of the
repository (`getFollows`, `scraper.js` lines 197-334) together with the
scrollable-region locator it uses (lines 216-237), and proofs settling the
specification's claims about them.

Modelling conventions:
* Per-cycle observations made through the page (the outcome of the three
  `page.evaluate` calls of one loop iteration) are an input tape
  `Nat → CycleInput`; the harvester itself is a pure function of that tape.
* A rejected (throwing) `page.evaluate` inside the loop is modelled by the
  `evalThrows` flag; since the loop has no try/catch, the model then yields
  `FollowsResult.thrown`, representing the exception escaping `getFollows`.
* The thresholds hard-coded in the source (`maxTries = 60`,
  `maxUsers = 10000`, and the `noProgressTries >= 10` exit) are gathered in
  a `Config`; `codeConfig` holds the source's values.
* The loop is written with explicit fuel; `bigFuel` is proved sufficient
  for every configuration and tape, so `getFollows` is total in effect.
-/

namespace Scraper

/-- A normalized list entry as produced by the per-cycle extraction
(`scraper.js` lines 300-308): trimmed anchor text and absolute profile URL. -/
structure Entry where
  username : String
  url : String
deriving DecidableEq, Repr

/-- Geometry of one candidate `div` inside the dialog, as read by the
locator evaluate (`scraper.js` lines 227-235): its `scrollHeight` (content
height) and `clientHeight` (visible height). -/
structure DivGeom where
  scrollHeight : Nat
  clientHeight : Nat
deriving DecidableEq, Repr

instance : Inhabited DivGeom := ⟨⟨0, 0⟩⟩

/-- The locator's predicate (`scraper.js` line 225):
`div.scrollHeight > div.clientHeight && div.clientHeight > 100`. -/
def isScrollableDiv (d : DivGeom) : Bool :=
  decide (d.clientHeight < d.scrollHeight) && decide (100 < d.clientHeight)

/-- The locator's search (`scraper.js` line 225 + line 236): `allDivs.find`
of the first div satisfying `isScrollableDiv`, reported as its index in the
document-order list of the dialog's descendant divs (`indexOf`).
`none` models `found: false`. -/
def locateScrollable : List DivGeom → Option Nat
  | [] => none
  | d :: ds =>
      if isScrollableDiv d then some 0
      else (locateScrollable ds).map (· + 1)

/-- What the harvester observes during one loop iteration, i.e. the results
of the cycle's three `page.evaluate` calls (`scraper.js` lines 266-308):
whether any of them rejects, whether the scroll box was still found
(`scrolled.found`), the scroll offset after the `scrollBy` (logged only),
the end-of-list signal (`atEnd`), and the extraction snapshot (`users`). -/
structure CycleInput where
  evalThrows : Bool
  scrollBoxMissing : Bool
  scrollTopAfter : Nat
  atEnd : Bool
  users : List Entry

/-- The loop's thresholds (`scraper.js` lines 207-208 and line 324). -/
structure Config where
  maxTries : Nat
  maxUsers : Nat
  noProgressLimit : Nat
deriving DecidableEq, Repr

/-- The values hard-coded in the source: `maxTries = 60` (line 207),
`maxUsers = 10000` (line 208), and the `noProgressTries >= 10` exit
threshold (line 324). -/
def codeConfig : Config := ⟨60, 10000, 10⟩

/-- The loop's mutable variables (`scraper.js` lines 204-211).  The
variables `lastScrollTop` and `scrollNoProgress` declared at lines 263-264
are omitted: the source never reads or updates them after initialization. -/
structure HState where
  allUsers : List Entry
  lastCount : Nat
  sameCountTries : Nat
  noProgressTries : Nat
  lastProgressCount : Nat
  reachedEnd : Bool
deriving DecidableEq, Repr

/-- The state on entry to the loop (`scraper.js` lines 204-211). -/
def initSt : HState := ⟨[], 0, 0, 0, 0, false⟩

/-- Which return path of `getFollows` produced the result. -/
inductive Reason
  /-- `if (!link) return []` (line 199): no followers/following link. -/
  | noLink
  /-- the locator reported not-found (lines 241-261). -/
  | locatorNotFound
  /-- `!scrolled.found` during a cycle (lines 280-285). -/
  | scrollLost
  /-- `noProgressTries >= 10` in-cycle return (lines 324-329). -/
  | noProgress
  /-- loop condition `sameCountTries < maxTries` failed (line 265). -/
  | sameCountMax
  /-- loop condition `allUsers.length < maxUsers` failed (line 265). -/
  | sizeCap
  /-- loop condition `!reachedEnd` failed (line 265). -/
  | endOfList
deriving DecidableEq, Repr

/-- The value `getFollows` hands back on a non-throwing path: the returned
list, the return path taken, the number of loop iterations entered,
whether Escape was pressed before returning (dialog dismissal), and the
candidate geometries dumped for diagnostics (non-empty only on the
locator-not-found path, lines 243-245). -/
structure FollowsOut where
  users : List Entry
  reason : Reason
  cycles : Nat
  escaped : Bool
  diagnostics : List DivGeom
deriving DecidableEq, Repr

/-- Either `getFollows` returned a value, or an uncaught in-loop evaluate
rejection escaped it (the loop body has no try/catch). -/
inductive FollowsResult
  | thrown (cycles : Nat)
  | ret (out : FollowsOut)
deriving DecidableEq, Repr

/-- Number of loop iterations entered before the run ended. -/
def cyclesOf : FollowsResult → Nat
  | .thrown c => c
  | .ret o => o.cycles

/-- The merge step of one cycle (`scraper.js` lines 309-320), verbatim:
a snapshot longer than every earlier one replaces `allUsers` and resets the
stall counters; otherwise both counters are incremented. -/
def stepMerge (st : HState) (users : List Entry) : HState :=
  if st.lastCount < users.length then
    let st1 : HState :=
      { st with lastCount := users.length, sameCountTries := 0, allUsers := users }
    if st.lastProgressCount < users.length then
      { st1 with lastProgressCount := users.length, noProgressTries := 0 }
    else st1
  else
    { st with sameCountTries := st.sameCountTries + 1,
              noProgressTries := st.noProgressTries + 1 }

/-- The loop condition of line 265, `while (sameCountTries < maxTries &&
allUsers.length < maxUsers && !reachedEnd)`: `some reason` when the loop
stops, recording which conjunct failed (first failing one, in the source's
evaluation order). -/
def loopGuard (cfg : Config) (st : HState) : Option Reason :=
  if cfg.maxTries ≤ st.sameCountTries then some .sameCountMax
  else if cfg.maxUsers ≤ st.allUsers.length then some .sizeCap
  else if st.reachedEnd then some .endOfList
  else none

/-- Outcome of one loop body execution. -/
inductive CycleOut
  /-- an in-loop `page.evaluate` rejected; no try/catch catches it. -/
  | thrown
  /-- an in-loop `return` statement ran (lines 280-285 or 324-329). -/
  | exitRet (users : List Entry) (reason : Reason)
  /-- the body completed and the loop continues. -/
  | next (st2 : HState)
deriving DecidableEq, Repr

/-- The state after the merge (lines 309-320) followed by
`if (atEnd) reachedEnd = true` (line 322). -/
def mergedState (inp : CycleInput) (st : HState) : HState :=
  { stepMerge st inp.users with
    reachedEnd := (stepMerge st inp.users).reachedEnd || inp.atEnd }

/-- One execution of the loop body (`scraper.js` lines 266-329): the
scroll evaluate with its `scrolled.found` check, the end-of-list probe, the
extraction, the merge (lines 309-320), `if (atEnd) reachedEnd = true`
(line 322), and the `noProgressTries >= 10` return (lines 324-329). -/
def cycleStep (cfg : Config) (inp : CycleInput) (st : HState) : CycleOut :=
  if inp.evalThrows then .thrown
  else if inp.scrollBoxMissing then .exitRet st.allUsers .scrollLost
  else if cfg.noProgressLimit ≤ (mergedState inp st).noProgressTries then
    .exitRet (mergedState inp st).allUsers .noProgress
  else .next (mergedState inp st)

/-- The harvester loop (`scraper.js` lines 265-330): check the loop
condition, run the body, repeat.  `fuel` only bounds the recursion and is
proved sufficient below (`runFrom_isSome`). -/
def runFrom (cfg : Config) (tape : Nat → CycleInput) :
    Nat → Nat → HState → Option FollowsResult
  | 0, i, st =>
      match loopGuard cfg st with
      | some reason => some (.ret ⟨st.allUsers, reason, i, true, []⟩)
      | none => none
  | f + 1, i, st =>
      match loopGuard cfg st with
      | some reason => some (.ret ⟨st.allUsers, reason, i, true, []⟩)
      | none =>
          match cycleStep cfg (tape i) st with
          | .thrown => some (.thrown (i + 1))
          | .exitRet us reason => some (.ret ⟨us, reason, i + 1, true, []⟩)
          | .next st2 => runFrom cfg tape f (i + 1) st2

/-- Input of one `getFollows` invocation: whether the followers/following
link was missing (line 198), whether the locator evaluate found no dialog
(line 218) or rejected (caught at lines 238-240), the document-order
geometries of the dialog's descendant divs, and the per-cycle tape. -/
structure FollowsInput where
  linkMissing : Bool
  dialogMissing : Bool
  locatorThrows : Bool
  divs : List DivGeom
  tape : Nat → CycleInput

/-- The candidate list the locator evaluate reports (`scraper.js` lines
227-236): the divs' geometries, or `[]` when the evaluate rejected or no
dialog was found. -/
def locatorCandidates (inp : FollowsInput) : List DivGeom :=
  if inp.locatorThrows || inp.dialogMissing then [] else inp.divs

/-- The `scrollableIndex` the locator reports, `none` for `found: false`. -/
def locatorFindsIdx (inp : FollowsInput) : Option Nat :=
  if inp.locatorThrows || inp.dialogMissing then none
  else locateScrollable inp.divs

/-- Fuel proved sufficient for every configuration and tape. -/
def bigFuel (cfg : Config) : Nat :=
  (cfg.maxUsers + 1) * (cfg.noProgressLimit + 1) + 1

/-- `getFollows` (`scraper.js` lines 197-334) at an explicit fuel:
the missing-link early return (line 199, no Escape pressed), the
locator-not-found return (lines 241-261: empty list, Escape pressed,
candidate geometries dumped), else the harvester loop from `initSt`. -/
def getFollowsWith (cfg : Config) (inp : FollowsInput) (fuel : Nat) :
    Option FollowsResult :=
  if inp.linkMissing then some (.ret ⟨[], .noLink, 0, false, []⟩)
  else if (locatorFindsIdx inp).isNone then
    some (.ret ⟨[], .locatorNotFound, 0, true, locatorCandidates inp⟩)
  else runFrom cfg inp.tape fuel 0 initSt

/-- The harvester, `getFollows` of `scraper.js` lines 197-334. -/
def getFollows (cfg : Config) (inp : FollowsInput) : Option FollowsResult :=
  getFollowsWith cfg inp (bigFuel cfg)

/-- Identity key of an entry, following the spec: the profile URL, else the
display name. -/
def identityKey (e : Entry) : String :=
  if e.url = "" then e.username else e.url

/-- Modelled from the spec: insert an entry into an accumulated list unless
its identity key is already present (insertion order preserved). -/
def insertByKey (acc : List Entry) (e : Entry) : List Entry :=
  if acc.any (fun v => identityKey v == identityKey e) then acc
  else acc ++ [e]

/-- Modelled from the spec: the set union of all cycle outputs keyed by
identity, in first-seen order — what the spec says `getFollows` returns. -/
def unionByKey (cycleOutputs : List (List Entry)) : List Entry :=
  cycleOutputs.foldl (fun acc us => us.foldl insertByKey acc) []

/-- Running maximum of the extraction counts of the cycles before cycle
`i`: the value the loop variable `lastCount` tracks. -/
def runMax (tape : Nat → CycleInput) : Nat → Nat
  | 0 => 0
  | i + 1 => max (runMax tape i) (tape i).users.length

/-- Cycle `i` is a record cycle when its extracted entry count strictly
exceeds every earlier cycle's count. -/
def isRecord (tape : Nat → CycleInput) (i : Nat) : Bool :=
  (List.range i).all fun k =>
    decide ((tape k).users.length < (tape i).users.length)

/-- The extraction snapshot of the most recent record cycle before cycle
`i` (`[]` when no cycle has run or no snapshot was ever kept). -/
def snapAt (tape : Nat → CycleInput) : Nat → List Entry
  | 0 => []
  | i + 1 => if isRecord tape i then (tape i).users else snapAt tape i

/-- Termination measure for the loop: strictly decreases at every
continuing iteration (the no-progress counter climbs toward its limit, and
every progress cycle pushes `lastCount` toward the size cap). -/
def stallMeasure (cfg : Config) (st : HState) : Nat :=
  (cfg.maxUsers - st.lastCount) * (cfg.noProgressLimit + 1) +
    (cfg.noProgressLimit - st.noProgressTries) + 1

/-! ### Concrete inputs used for witnesses and counterexamples -/

/-- A sample entry. -/
def ea : Entry := ⟨"alice", "https://instagram.com/alice/"⟩

/-- A sample entry with a different identity key than `ea`. -/
def eb : Entry := ⟨"bob", "https://instagram.com/bob/"⟩

/-- A sample entry with a different identity key than `ea` and `eb`. -/
def ec : Entry := ⟨"carol", "https://instagram.com/carol/"⟩

/-- A div whose content height exceeds its visible height: the locator
accepts it. -/
def goodDiv : DivGeom := ⟨900, 400⟩

/-- A div with no height overflow: the locator rejects it. -/
def flatDiv : DivGeom := ⟨300, 400⟩

/-- A `getFollows` input with the link present, the dialog present, a
scrollable div located, and the given per-cycle tape. -/
def mkInp (t : Nat → CycleInput) : FollowsInput := ⟨false, false, false, [goodDiv], t⟩

/-- Tape whose first cycle extracts `[ea]` and whose later cycles extract
`[eb]` (same count, different identity): the view scrolled `ea` out and
`eb` in without growing. -/
def c1Tape : Nat → CycleInput := fun i =>
  if i = 0 then ⟨false, false, 0, false, [ea]⟩ else ⟨false, false, 0, false, [eb]⟩

/-- Tape that yields one more entry every tenth cycle, up to eight: each
stall streak stays below the exit threshold for seventy cycles. -/
def c2Tape : Nat → CycleInput := fun i =>
  ⟨false, false, 0, false, List.replicate (min (i / 10 + 1) 8) ea⟩

/-- A completely static view: the same single entry and the same scroll
offset on every cycle, never signalling end-of-list. -/
def staticTape : Nat → CycleInput := fun _ => ⟨false, false, 7, false, [ea]⟩

/-- A configuration with size cap 3 (thresholds are configuration per the
spec; the other two values are the source's). -/
def cfg6 : Config := ⟨60, 3, 10⟩

/-- Tape whose every cycle extracts the same five distinct entries. -/
def c6Tape : Nat → CycleInput := fun _ =>
  ⟨false, false, 0, false, [ea, eb, ec, ⟨"dan", "u4"⟩, ⟨"eve", "u5"⟩]⟩

/-- Tape whose first cycle's DOM evaluation rejects. -/
def c9Tape : Nat → CycleInput := fun _ => ⟨true, false, 0, false, []⟩

/-! ### Basic facts about the loop pieces -/

theorem loopGuard_eq_none {cfg : Config} {st : HState} :
    loopGuard cfg st = none ↔
      ¬ cfg.maxTries ≤ st.sameCountTries ∧ ¬ cfg.maxUsers ≤ st.allUsers.length ∧
        st.reachedEnd ≠ true := by
  unfold loopGuard
  split_ifs with h1 h2 h3 <;> simp_all

theorem loopGuard_reason {cfg : Config} {st : HState} {r : Reason}
    (h : loopGuard cfg st = some r) :
    (r = .sameCountMax ∧ cfg.maxTries ≤ st.sameCountTries) ∨
      (r = .sizeCap ∧ cfg.maxUsers ≤ st.allUsers.length) ∨ r = .endOfList := by
  unfold loopGuard at h
  split_ifs at h <;> simp_all

theorem cycleStep_next_iff {cfg : Config} {inp : CycleInput} {st st2 : HState} :
    cycleStep cfg inp st = .next st2 ↔
      inp.evalThrows = false ∧ inp.scrollBoxMissing = false ∧
        st2 = mergedState inp st ∧
        (mergedState inp st).noProgressTries < cfg.noProgressLimit := by
  unfold cycleStep
  split_ifs with h1 h2 h3
  · simp [h1]
  · simp [h1, h2]
  · constructor
    · intro hcon; exact absurd hcon (by simp)
    · rintro ⟨-, -, -, hlt⟩; omega
  · simp only [CycleOut.next.injEq]
    constructor
    · intro h
      refine ⟨by simp [h1], by simp [h2], h.symm, by omega⟩
    · rintro ⟨-, -, rfl, -⟩; rfl

theorem stepMerge_inv {st : HState} {users : List Entry}
    (h : st.allUsers.length = st.lastCount) :
    (stepMerge st users).allUsers.length = (stepMerge st users).lastCount := by
  unfold stepMerge
  split_ifs <;> simp [h]

theorem stepMerge_lastCount_le (st : HState) (users : List Entry) :
    st.lastCount ≤ (stepMerge st users).lastCount := by
  unfold stepMerge
  split_ifs <;> simp <;> omega

theorem stepMerge_reachedEnd (st : HState) (users : List Entry) :
    (stepMerge st users).reachedEnd = st.reachedEnd := by
  unfold stepMerge
  split_ifs <;> rfl

/-! ### Fuel irrelevance and the cycle-count bound -/

theorem runFrom_mono (cfg : Config) (tape : Nat → CycleInput) :
    ∀ {f g i st r}, f ≤ g →
      runFrom cfg tape f i st = some r → runFrom cfg tape g i st = some r := by
  intro f
  induction f with
  | zero =>
      intro g i st r _ h0
      rw [runFrom] at h0
      cases hg : loopGuard cfg st with
      | some reason =>
          rw [hg] at h0
          cases g <;> rw [runFrom] <;> rw [hg] <;> exact h0
      | none => rw [hg] at h0; exact absurd h0 (by simp)
  | succ f ih =>
      intro g i st r hfg h0
      obtain ⟨g', rfl⟩ : ∃ g', g = g' + 1 := ⟨g - 1, by omega⟩
      rw [runFrom] at h0
      rw [runFrom]
      cases hg : loopGuard cfg st with
      | some reason => rw [hg] at h0; exact h0
      | none =>
          rw [hg] at h0
          cases hc : cycleStep cfg (tape i) st with
          | thrown => rw [hc] at h0; exact h0
          | exitRet us reason => rw [hc] at h0; exact h0
          | next st2 => rw [hc] at h0; exact ih (by omega) h0

theorem runFrom_cycles_le (cfg : Config) (tape : Nat → CycleInput) :
    ∀ f i st r, runFrom cfg tape f i st = some r → cyclesOf r ≤ i + f := by
  intro f
  induction f with
  | zero =>
      intro i st r h
      rw [runFrom] at h
      cases hg : loopGuard cfg st with
      | some reason =>
          rw [hg] at h
          obtain rfl : FollowsResult.ret ⟨st.allUsers, reason, i, true, []⟩ = r := by
            simpa using h
          simp only [cyclesOf]
          omega
      | none => rw [hg] at h; exact absurd h (by simp)
  | succ f ih =>
      intro i st r h
      rw [runFrom] at h
      cases hg : loopGuard cfg st with
      | some reason =>
          rw [hg] at h
          obtain rfl : FollowsResult.ret ⟨st.allUsers, reason, i, true, []⟩ = r := by
            simpa using h
          simp only [cyclesOf]
          omega
      | none =>
          rw [hg] at h
          cases hc : cycleStep cfg (tape i) st with
          | thrown =>
              rw [hc] at h
              obtain rfl : FollowsResult.thrown (i + 1) = r := by simpa using h
              simp only [cyclesOf]
              omega
          | exitRet us reason =>
              rw [hc] at h
              obtain rfl : FollowsResult.ret ⟨us, reason, i + 1, true, []⟩ = r := by
                simpa using h
              simp only [cyclesOf]
              omega
          | next st2 =>
              rw [hc] at h
              have := ih (i + 1) st2 r h
              omega

/-! ### Termination of the loop -/

theorem mergedState_noProgressTries (inp : CycleInput) (st : HState) :
    (mergedState inp st).noProgressTries = (stepMerge st inp.users).noProgressTries := rfl

theorem mergedState_lastCount (inp : CycleInput) (st : HState) :
    (mergedState inp st).lastCount = (stepMerge st inp.users).lastCount := rfl

theorem mergedState_allUsers (inp : CycleInput) (st : HState) :
    (mergedState inp st).allUsers = (stepMerge st inp.users).allUsers := rfl

theorem stallMeasure_decreases {cfg : Config} {st : HState} (inp : CycleInput)
    (hinv : st.allUsers.length = st.lastCount)
    (hcap : st.allUsers.length < cfg.maxUsers)
    (hnp : (mergedState inp st).noProgressTries < cfg.noProgressLimit) :
    stallMeasure cfg (mergedState inp st) < stallMeasure cfg st := by
  have hc : st.lastCount < cfg.maxUsers := hinv ▸ hcap
  simp only [stallMeasure, mergedState_noProgressTries, mergedState_lastCount] at hnp ⊢
  unfold stepMerge at hnp ⊢
  split_ifs at hnp ⊢ with h1 h2 <;> dsimp only at hnp ⊢
  · obtain ⟨b, hb⟩ : ∃ b, cfg.maxUsers - st.lastCount = b + 1 :=
      ⟨cfg.maxUsers - st.lastCount - 1, by omega⟩
    have h4 : (cfg.maxUsers - inp.users.length) * (cfg.noProgressLimit + 1) ≤
        b * (cfg.noProgressLimit + 1) := Nat.mul_le_mul_right _ (by omega)
    rw [hb, Nat.succ_mul]
    omega
  · obtain ⟨b, hb⟩ : ∃ b, cfg.maxUsers - st.lastCount = b + 1 :=
      ⟨cfg.maxUsers - st.lastCount - 1, by omega⟩
    have h4 : (cfg.maxUsers - inp.users.length) * (cfg.noProgressLimit + 1) ≤
        b * (cfg.noProgressLimit + 1) := Nat.mul_le_mul_right _ (by omega)
    rw [hb, Nat.succ_mul]
    omega
  · omega

theorem mergedState_inv {inp : CycleInput} {st : HState}
    (hinv : st.allUsers.length = st.lastCount) :
    (mergedState inp st).allUsers.length = (mergedState inp st).lastCount := by
  rw [mergedState_allUsers, mergedState_lastCount]
  exact stepMerge_inv hinv

theorem runFrom_isSome (cfg : Config) (tape : Nat → CycleInput) :
    ∀ fuel i st, st.allUsers.length = st.lastCount →
      stallMeasure cfg st ≤ fuel → (runFrom cfg tape fuel i st).isSome := by
  intro fuel
  induction fuel with
  | zero =>
      intro i st _ hle
      exfalso
      simp only [stallMeasure] at hle
      omega
  | succ f ih =>
      intro i st hinv hle
      rw [runFrom]
      cases hg : loopGuard cfg st with
      | some reason => simp
      | none =>
          cases hc : cycleStep cfg (tape i) st with
          | thrown => simp
          | exitRet us reason => simp
          | next st2 =>
              obtain ⟨-, -, rfl, hlt⟩ := cycleStep_next_iff.mp hc
              have hguard := loopGuard_eq_none.mp hg
              have hcap : st.allUsers.length < cfg.maxUsers := by
                have := hguard.2.1
                omega
              have hdec := stallMeasure_decreases (tape i) hinv hcap
                (by rw [mergedState_noProgressTries] at hlt ⊢; exact hlt)
              exact ih (i + 1) _ (mergedState_inv hinv) (by omega)

theorem bigFuel_ge (cfg : Config) : stallMeasure cfg initSt ≤ bigFuel cfg := by
  simp only [stallMeasure, bigFuel, initSt, Nat.sub_zero]
  rw [Nat.add_mul, Nat.one_mul]
  omega

theorem getFollows_isSome (cfg : Config) (inp : FollowsInput) :
    (getFollows cfg inp).isSome := by
  unfold getFollows getFollowsWith
  split_ifs with h1 h2
  · simp
  · simp
  · exact runFrom_isSome cfg inp.tape (bigFuel cfg) 0 initSt rfl (bigFuel_ge cfg)

theorem getFollowsWith_mono {cfg : Config} {inp : FollowsInput} {f g : Nat}
    {r : FollowsResult} (hfg : f ≤ g) (h : getFollowsWith cfg inp f = some r) :
    getFollowsWith cfg inp g = some r := by
  unfold getFollowsWith at h ⊢
  split_ifs at h ⊢
  · exact h
  · exact h
  · exact runFrom_mono cfg inp.tape hfg h

theorem getFollows_of_small {cfg : Config} {inp : FollowsInput} {f : Nat}
    {r : FollowsResult} (hf : f ≤ bigFuel cfg) (h : getFollowsWith cfg inp f = some r) :
    getFollows cfg inp = some r :=
  getFollowsWith_mono hf h

/-! ### What the loop's `allUsers` tracks: the latest record snapshot -/

theorem runMax_le (tape : Nat → CycleInput) :
    ∀ i k, k < i → (tape k).users.length ≤ runMax tape i := by
  intro i
  induction i with
  | zero => intro k hk; exact absurd hk (Nat.not_lt_zero k)
  | succ i ih =>
      intro k hk
      rw [runMax]
      rcases Nat.lt_succ_iff_lt_or_eq.mp hk with h | rfl
      · exact le_trans (ih k h) (le_max_left _ _)
      · exact le_max_right _ _

theorem runMax_attained (tape : Nat → CycleInput) :
    ∀ i, runMax tape i = 0 ∨ ∃ k, k < i ∧ (tape k).users.length = runMax tape i := by
  intro i
  induction i with
  | zero => left; rfl
  | succ i ih =>
      rw [runMax]
      rcases Nat.le_total (runMax tape i) (tape i).users.length with h | h
      · right; exact ⟨i, Nat.lt_succ_self i, (max_eq_right h).symm⟩
      · rw [max_eq_left h]
        rcases ih with h0 | ⟨k, hk, he⟩
        · left; exact h0
        · right; exact ⟨k, Nat.lt_succ_of_lt hk, he⟩

theorem isRecord_true_iff {tape : Nat → CycleInput} {i : Nat} :
    isRecord tape i = true ↔
      ∀ k, k < i → (tape k).users.length < (tape i).users.length := by
  unfold isRecord
  simp

theorem isRecord_of_runMax_lt {tape : Nat → CycleInput} {i : Nat}
    (h : runMax tape i < (tape i).users.length) : isRecord tape i = true := by
  rw [isRecord_true_iff]
  intro k hk
  exact lt_of_le_of_lt (runMax_le tape i k hk) h

theorem record_degenerate {tape : Nat → CycleInput} {i : Nat}
    (hrec : isRecord tape i = true)
    (hle : (tape i).users.length ≤ runMax tape i) :
    (tape i).users = [] ∧ runMax tape i = 0 := by
  have hall := isRecord_true_iff.mp hrec
  rcases runMax_attained tape i with hA | ⟨k, hk, he⟩
  · have hz : (tape i).users.length = 0 := by omega
    exact ⟨List.length_eq_zero.mp hz, hA⟩
  · have := hall k hk
    exfalso
    omega

theorem snapAt_length (tape : Nat → CycleInput) :
    ∀ i, (snapAt tape i).length = runMax tape i := by
  intro i
  induction i with
  | zero => rfl
  | succ i ih =>
      rw [snapAt, runMax]
      by_cases hrec : isRecord tape i = true
      · rw [if_pos hrec]
        by_cases hlt : runMax tape i < (tape i).users.length
        · rw [max_eq_right (le_of_lt hlt)]
        · push_neg at hlt
          obtain ⟨hnil, h0⟩ := record_degenerate hrec hlt
          rw [hnil, h0]
          simp
      · rw [if_neg hrec, ih]
        have hns : ¬ ∀ k, k < i → (tape k).users.length < (tape i).users.length :=
          fun hcon => hrec (isRecord_true_iff.mpr hcon)
        push_neg at hns
        obtain ⟨k, hk, hge⟩ := hns
        have := runMax_le tape i k hk
        rw [max_eq_left (by omega)]

theorem snapAt_succ_of_not_lt {tape : Nat → CycleInput} {i : Nat}
    (hle : (tape i).users.length ≤ runMax tape i) :
    snapAt tape (i + 1) = snapAt tape i := by
  rw [snapAt]
  by_cases hrec : isRecord tape i = true
  · rw [if_pos hrec]
    obtain ⟨hnil, h0⟩ := record_degenerate hrec hle
    have hz : (snapAt tape i).length = 0 := by rw [snapAt_length]; exact h0
    rw [hnil, List.length_eq_zero.mp hz]
  · rw [if_neg hrec]

theorem step_snap {tape : Nat → CycleInput} {i : Nat} {st : HState}
    (h1 : st.allUsers = snapAt tape i) (h2 : st.lastCount = runMax tape i) :
    (stepMerge st (tape i).users).allUsers = snapAt tape (i + 1) ∧
      (stepMerge st (tape i).users).lastCount = runMax tape (i + 1) := by
  by_cases hlt : runMax tape i < (tape i).users.length
  · have hrec := isRecord_of_runMax_lt hlt
    unfold stepMerge
    rw [if_pos (show st.lastCount < (tape i).users.length by omega)]
    constructor
    · split_ifs <;> simp [snapAt, hrec]
    · split_ifs <;> simp [runMax, max_eq_right (le_of_lt hlt)]
  · push_neg at hlt
    unfold stepMerge
    rw [if_neg (show ¬ st.lastCount < (tape i).users.length by omega)]
    constructor
    · simpa [h1] using (snapAt_succ_of_not_lt hlt).symm
    · simp [h2, runMax, max_eq_left hlt]

theorem snapAt_cases (tape : Nat → CycleInput) :
    ∀ i, snapAt tape i = [] ∨ ∃ j, j < i ∧ snapAt tape i = (tape j).users := by
  intro i
  induction i with
  | zero => left; rfl
  | succ i ih =>
      rw [snapAt]
      by_cases hrec : isRecord tape i = true
      · rw [if_pos hrec]; right; exact ⟨i, Nat.lt_succ_self i, rfl⟩
      · rw [if_neg hrec]
        rcases ih with h | ⟨j, hj, he⟩
        · left; exact h
        · right; exact ⟨j, Nat.lt_succ_of_lt hj, he⟩

theorem cycleStep_exitRet_iff {cfg : Config} {inp : CycleInput} {st : HState}
    {us : List Entry} {r : Reason} :
    cycleStep cfg inp st = .exitRet us r ↔
      (inp.evalThrows = false ∧ inp.scrollBoxMissing = true ∧
        us = st.allUsers ∧ r = .scrollLost) ∨
      (inp.evalThrows = false ∧ inp.scrollBoxMissing = false ∧
        cfg.noProgressLimit ≤ (mergedState inp st).noProgressTries ∧
        us = (mergedState inp st).allUsers ∧ r = .noProgress) := by
  unfold cycleStep
  split_ifs with h1 h2 h3
  · simp [h1]
  · simp only [CycleOut.exitRet.injEq]
    constructor
    · rintro ⟨rfl, rfl⟩
      exact Or.inl ⟨by simp [h1], h2, rfl, rfl⟩
    · rintro (⟨-, -, rfl, rfl⟩ | ⟨-, hsb, -, -, -⟩)
      · exact ⟨rfl, rfl⟩
      · rw [h2] at hsb; exact absurd hsb (by simp)
  · simp only [CycleOut.exitRet.injEq]
    constructor
    · rintro ⟨rfl, rfl⟩
      exact Or.inr ⟨by simp [h1], by simp [h2], h3, rfl, rfl⟩
    · rintro (⟨-, hsb, -, -, -⟩ | ⟨-, -, -, rfl, rfl⟩)
      · rw [hsb] at h2; exact absurd rfl h2
      · exact ⟨rfl, rfl⟩
  · constructor
    · intro hcon; exact absurd hcon (by simp)
    · rintro (⟨-, hsb, -, -, -⟩ | ⟨-, -, hge, -, -⟩)
      · rw [hsb] at h2; exact absurd rfl h2
      · omega

theorem runFrom_ret_users (cfg : Config) (tape : Nat → CycleInput) :
    ∀ fuel i st o, st.allUsers = snapAt tape i → st.lastCount = runMax tape i →
      runFrom cfg tape fuel i st = some (.ret o) →
      o.users = snapAt tape (if o.reason = .scrollLost then o.cycles - 1 else o.cycles) := by
  intro fuel
  induction fuel with
  | zero =>
      intro i st o h1 h2 h
      rw [runFrom] at h
      cases hg : loopGuard cfg st with
      | some reason =>
          rw [hg] at h
          obtain rfl : (⟨st.allUsers, reason, i, true, []⟩ : FollowsOut) = o := by
            simpa using h
          rcases loopGuard_reason hg with ⟨rfl, -⟩ | ⟨rfl, -⟩ | rfl <;> simpa using h1
      | none => rw [hg] at h; exact absurd h (by simp)
  | succ f ih =>
      intro i st o h1 h2 h
      rw [runFrom] at h
      cases hg : loopGuard cfg st with
      | some reason =>
          rw [hg] at h
          obtain rfl : (⟨st.allUsers, reason, i, true, []⟩ : FollowsOut) = o := by
            simpa using h
          rcases loopGuard_reason hg with ⟨rfl, -⟩ | ⟨rfl, -⟩ | rfl <;> simpa using h1
      | none =>
          rw [hg] at h
          cases hc : cycleStep cfg (tape i) st with
          | thrown => rw [hc] at h; exact absurd h (by simp)
          | exitRet us reason =>
              rw [hc] at h
              obtain rfl : (⟨us, reason, i + 1, true, []⟩ : FollowsOut) = o := by
                simpa using h
              rcases cycleStep_exitRet_iff.mp hc with ⟨-, -, rfl, rfl⟩ | ⟨-, -, -, rfl, rfl⟩
              · simpa using h1
              · have hsnap := (step_snap h1 h2).1
                simpa [mergedState_allUsers] using hsnap
          | next st2 =>
              rw [hc] at h
              obtain ⟨-, -, rfl, -⟩ := cycleStep_next_iff.mp hc
              have hsnap := step_snap h1 h2
              exact ih (i + 1) _ o
                (by rw [mergedState_allUsers]; exact hsnap.1)
                (by rw [mergedState_lastCount]; exact hsnap.2) h

/-! ### Exact behaviour on stalled (no-progress) cycle runs -/

theorem stall_run (cfg : Config) (tape : Nat → CycleInput) (A : List Entry) :
    ∀ m i st fuel,
      st.allUsers = A →
      st.allUsers.length = st.lastCount →
      st.noProgressTries + m = cfg.noProgressLimit →
      st.sameCountTries + m ≤ cfg.maxTries →
      1 ≤ m → m ≤ fuel →
      st.lastCount < cfg.maxUsers →
      st.reachedEnd = false →
      (∀ k, k < m → (tape (i + k)).evalThrows = false ∧
        (tape (i + k)).scrollBoxMissing = false ∧
        (tape (i + k)).atEnd = false ∧ (tape (i + k)).users = A) →
      runFrom cfg tape fuel i st =
        some (.ret ⟨A, .noProgress, i + m, true, []⟩) := by
  intro m
  induction m with
  | zero =>
      intro i st fuel _ _ _ _ h5
      exact absurd h5 (by omega)
  | succ m ih =>
      intro i st fuel hA hinv hnp hsc _ hmf hcap hre htape
      obtain ⟨f, rfl⟩ : ∃ f, fuel = f + 1 := ⟨fuel - 1, by omega⟩
      have hg : loopGuard cfg st = none :=
        loopGuard_eq_none.mpr ⟨by omega, by omega, by simp [hre]⟩
      obtain ⟨hth, hsb, hae, hus⟩ := htape 0 (by omega)
      simp only [Nat.add_zero] at hth hsb hae hus
      have hlen : ¬ st.lastCount < (tape i).users.length := by
        rw [hus, ← hA]
        omega
      have hmerge : mergedState (tape i) st =
          { st with sameCountTries := st.sameCountTries + 1,
                    noProgressTries := st.noProgressTries + 1,
                    reachedEnd := false } := by
        unfold mergedState stepMerge
        rw [if_neg hlen]
        simp [hre, hae]
      rcases Nat.eq_zero_or_pos m with rfl | hm
      · have hcyc : cycleStep cfg (tape i) st = .exitRet st.allUsers .noProgress := by
          unfold cycleStep
          rw [if_neg (show ¬ (tape i).evalThrows = true by simp [hth])]
          rw [if_neg (show ¬ (tape i).scrollBoxMissing = true by simp [hsb])]
          rw [hmerge]
          dsimp only
          rw [if_pos (show cfg.noProgressLimit ≤ st.noProgressTries + 1 by omega)]
        rw [runFrom, hg, hcyc]
        simp [hA]
      · have hcyc : cycleStep cfg (tape i) st =
            .next { st with sameCountTries := st.sameCountTries + 1,
                            noProgressTries := st.noProgressTries + 1,
                            reachedEnd := false } := by
          unfold cycleStep
          rw [if_neg (show ¬ (tape i).evalThrows = true by simp [hth])]
          rw [if_neg (show ¬ (tape i).scrollBoxMissing = true by simp [hsb])]
          rw [hmerge]
          dsimp only
          rw [if_neg (show ¬ cfg.noProgressLimit ≤ st.noProgressTries + 1 by omega)]
        rw [runFrom, hg, hcyc]
        have hrec := ih (i + 1)
          { st with sameCountTries := st.sameCountTries + 1,
                    noProgressTries := st.noProgressTries + 1,
                    reachedEnd := false } f
          hA hinv (show st.noProgressTries + 1 + m = cfg.noProgressLimit by omega)
          (show st.sameCountTries + 1 + m ≤ cfg.maxTries by omega)
          hm (by omega) hcap rfl
          (by
            intro k hk
            have h := htape (k + 1) (by omega)
            have he : i + (k + 1) = i + 1 + k := by omega
            rwa [he] at h)
        have he2 : i + 1 + m = i + (m + 1) := by omega
        rw [he2] at hrec
        exact hrec

/-! ### Size-cap exits carry at least the cap -/

theorem runFrom_sizeCap (cfg : Config) (tape : Nat → CycleInput) :
    ∀ fuel i st o, runFrom cfg tape fuel i st = some (.ret o) →
      o.reason = .sizeCap → cfg.maxUsers ≤ o.users.length := by
  intro fuel
  induction fuel with
  | zero =>
      intro i st o h hr
      rw [runFrom] at h
      cases hg : loopGuard cfg st with
      | some reason =>
          rw [hg] at h
          obtain rfl : (⟨st.allUsers, reason, i, true, []⟩ : FollowsOut) = o := by
            simpa using h
          rcases loopGuard_reason hg with ⟨rfl, -⟩ | ⟨rfl, hle⟩ | rfl
          · simp at hr
          · simpa using hle
          · simp at hr
      | none => rw [hg] at h; exact absurd h (by simp)
  | succ f ih =>
      intro i st o h hr
      rw [runFrom] at h
      cases hg : loopGuard cfg st with
      | some reason =>
          rw [hg] at h
          obtain rfl : (⟨st.allUsers, reason, i, true, []⟩ : FollowsOut) = o := by
            simpa using h
          rcases loopGuard_reason hg with ⟨rfl, -⟩ | ⟨rfl, hle⟩ | rfl
          · simp at hr
          · simpa using hle
          · simp at hr
      | none =>
          rw [hg] at h
          cases hc : cycleStep cfg (tape i) st with
          | thrown => rw [hc] at h; exact absurd h (by simp)
          | exitRet us reason =>
              rw [hc] at h
              obtain rfl : (⟨us, reason, i + 1, true, []⟩ : FollowsOut) = o := by
                simpa using h
              rcases cycleStep_exitRet_iff.mp hc with ⟨-, -, -, rfl⟩ | ⟨-, -, -, -, rfl⟩ <;>
                simp at hr
          | next st2 =>
              rw [hc] at h
              exact ih (i + 1) st2 o h hr

/-! ### Field-wise views of the merge step -/

theorem stepMerge_allUsers (st : HState) (users : List Entry) :
    (stepMerge st users).allUsers =
      if st.lastCount < users.length then users else st.allUsers := by
  unfold stepMerge
  split_ifs <;> rfl

theorem stepMerge_lastCount (st : HState) (users : List Entry) :
    (stepMerge st users).lastCount =
      if st.lastCount < users.length then users.length else st.lastCount := by
  unfold stepMerge
  split_ifs <;> rfl

theorem stepMerge_sameCountTries (st : HState) (users : List Entry) :
    (stepMerge st users).sameCountTries =
      if st.lastCount < users.length then 0 else st.sameCountTries + 1 := by
  unfold stepMerge
  split_ifs <;> rfl

theorem stepMerge_noProgressTries (st : HState) (users : List Entry) :
    (stepMerge st users).noProgressTries =
      if st.lastCount < users.length then
        (if st.lastProgressCount < users.length then 0 else st.noProgressTries)
      else st.noProgressTries + 1 := by
  unfold stepMerge
  split_ifs <;> rfl

theorem mergedState_reachedEnd (inp : CycleInput) (st : HState) :
    (mergedState inp st).reachedEnd = (st.reachedEnd || inp.atEnd) := by
  have h : (mergedState inp st).reachedEnd =
      ((stepMerge st inp.users).reachedEnd || inp.atEnd) := rfl
  rw [h, stepMerge_reachedEnd]

theorem mergedState_sameCountTries (inp : CycleInput) (st : HState) :
    (mergedState inp st).sameCountTries = (stepMerge st inp.users).sameCountTries := rfl

/-! ### Claim theorems -/

/-- C7 (confirmed): for every root element presented to the scrollable
region locator, the locator scans the descendant divs in document order and
returns the index of the first one whose content height exceeds its visible
height and whose visible height exceeds the minimum threshold
(`isScrollableDiv`); if no descendant satisfies the predicate it reports
not-found (`none`). -/
theorem c7_locator_first_overflow (divs : List DivGeom) :
    (∀ i, locateScrollable divs = some i →
        isScrollableDiv (divs.getD i default) = true ∧
          ∀ j, j < i → isScrollableDiv (divs.getD j default) = false) ∧
      (locateScrollable divs = none → ∀ d, d ∈ divs → isScrollableDiv d = false) := by
  induction divs with
  | nil =>
      constructor
      · intro i h
        exact absurd h (by simp [locateScrollable])
      · intro _ d hd
        exact absurd hd (by simp)
  | cons a l ih =>
      constructor
      · intro i h
        rw [locateScrollable] at h
        by_cases ha : isScrollableDiv a = true
        · rw [if_pos ha] at h
          obtain rfl : (0 : Nat) = i := by simpa using h
          exact ⟨by simpa using ha, fun j hj => absurd hj (by omega)⟩
        · rw [if_neg ha] at h
          cases hl : locateScrollable l with
          | none => rw [hl] at h; exact absurd h (by simp)
          | some i0 =>
              rw [hl] at h
              obtain rfl : i0 + 1 = i := by simpa using h
              have hi0 := ih.1 i0 hl
              constructor
              · simpa [List.getD_cons_succ] using hi0.1
              · intro j hj
                cases j with
                | zero => simpa [List.getD_cons_zero] using ha
                | succ j =>
                    have := hi0.2 j (by omega)
                    simpa [List.getD_cons_succ] using this
      · intro h d hd
        rw [locateScrollable] at h
        by_cases ha : isScrollableDiv a = true
        · rw [if_pos ha] at h; exact absurd h (by simp)
        · rw [if_neg ha] at h
          cases hl : locateScrollable l with
          | some i0 => rw [hl] at h; exact absurd h (by simp)
          | none =>
              rcases List.mem_cons.mp hd with rfl | hdl
              · simpa using ha
              · exact ih.2 hl d hdl

/-- Witness for C7 at a concrete candidate list. -/
theorem c7_locator_first_overflow_witness :
    isScrollableDiv (([flatDiv, goodDiv] : List DivGeom).getD 1 default) = true ∧
      ∀ j, j < 1 →
        isScrollableDiv (([flatDiv, goodDiv] : List DivGeom).getD j default) = false :=
  (c7_locator_first_overflow [flatDiv, goodDiv]).1 1 (by decide)

/-- C8 (confirmed): whenever the locator reports not-found, `getFollows`
returns an empty list — a normal return (`FollowsResult.ret`), not an
exception — after pressing Escape to dismiss the dialog, and the candidate
geometries reported by the locator evaluate are dumped as diagnostics.
(The caller `scrapeInstagram` simply continues with the next list.) -/
theorem c8_locator_not_found (cfg : Config) (inp : FollowsInput)
    (hlink : inp.linkMissing = false) (hloc : locatorFindsIdx inp = none) :
    getFollows cfg inp =
      some (.ret ⟨[], .locatorNotFound, 0, true, locatorCandidates inp⟩) := by
  unfold getFollows getFollowsWith
  rw [if_neg (show ¬ inp.linkMissing = true by simp [hlink])]
  rw [if_pos (show (locatorFindsIdx inp).isNone = true by simp [hloc])]

/-- A `getFollows` input whose dialog holds no scrollable div. -/
def c8Inp : FollowsInput := ⟨false, false, false, [flatDiv], staticTape⟩

/-- Witness for C8 at a concrete input. -/
theorem c8_locator_not_found_witness :
    getFollows codeConfig c8Inp =
      some (.ret ⟨[], .locatorNotFound, 0, true, locatorCandidates c8Inp⟩) :=
  c8_locator_not_found codeConfig c8Inp rfl (by decide)

/-- C5 counterexample: the harvester does remove entries.  After a first
cycle extracting `[ea]`, a second cycle extracting `[eb, ec]` replaces the
collection wholesale (lines 309-316: `allUsers = users`), and `ea` is gone
even though it was collected. -/
theorem c5_counterexample :
    ea ∈ (stepMerge initSt [ea]).allUsers ∧
      ea ∉ (stepMerge (stepMerge initSt [ea]) [eb, ec]).allUsers := by
  decide

/-- C5 amended (proved): the *size* of the collection is monotonically
non-decreasing from each cycle to the next — but only because a snapshot
replaces the collection exactly when it is strictly longer; individual
entries are not preserved (see the counterexample). -/
theorem c5_size_monotone (st : HState) (users : List Entry)
    (hinv : st.allUsers.length = st.lastCount) :
    st.allUsers.length ≤ (stepMerge st users).allUsers.length ∧
      (stepMerge st users).allUsers.length = (stepMerge st users).lastCount := by
  refine ⟨?_, stepMerge_inv hinv⟩
  rw [stepMerge_allUsers]
  split_ifs with h
  · omega
  · exact le_refl _

/-- Witness for C5's amended statement at a concrete state. -/
theorem c5_size_monotone_witness :
    initSt.allUsers.length ≤ (stepMerge initSt [ea]).allUsers.length ∧
      (stepMerge initSt [ea]).allUsers.length = (stepMerge initSt [ea]).lastCount :=
  c5_size_monotone initSt [ea] rfl

/-- C9 counterexample: a rejection in the very first cycle's DOM
evaluation escapes `getFollows` as an exception (`FollowsResult.thrown`) —
the loop body has no try/catch — so the harvest returns nothing at all,
contrary to the claim that cycle failures are absorbed as zero-new-entries
cycles. -/
theorem c9_counterexample :
    getFollows codeConfig (mkInp c9Tape) = some (.thrown 1) :=
  @getFollows_of_small codeConfig (mkInp c9Tape) 2 (.thrown 1) (by decide) (by decide)

/-- C9 amended (proved): whenever the run reaches a cycle whose DOM
evaluation rejects, the exception propagates out of the harvester loop and
aborts the harvest, discarding everything accumulated; only the initial
locator evaluation (lines 215-240) is protected by a try/catch.  Stated
here for a rejection in the first cycle. -/
theorem c9_throw_escapes (cfg : Config) (inp : FollowsInput)
    (hlink : inp.linkMissing = false) (hloc : (locatorFindsIdx inp).isSome = true)
    (hthrow : (inp.tape 0).evalThrows = true)
    (hmt : 0 < cfg.maxTries) (hmu : 0 < cfg.maxUsers) :
    getFollows cfg inp = some (.thrown 1) := by
  unfold getFollows getFollowsWith
  rw [if_neg (show ¬ inp.linkMissing = true by simp [hlink])]
  obtain ⟨v, hv⟩ := Option.isSome_iff_exists.mp hloc
  rw [if_neg (show ¬ (locatorFindsIdx inp).isNone = true by rw [hv]; simp)]
  obtain ⟨f, hf⟩ : ∃ f, bigFuel cfg = f + 1 := ⟨bigFuel cfg - 1, by simp [bigFuel]⟩
  rw [hf, runFrom]
  have hg : loopGuard cfg initSt = none :=
    loopGuard_eq_none.mpr
      ⟨by simp only [initSt]; omega, by simp only [initSt, List.length_nil]; omega,
        by simp [initSt]⟩
  rw [hg]
  have hcyc : cycleStep cfg (inp.tape 0) initSt = .thrown := by
    unfold cycleStep
    rw [if_pos hthrow]
  rw [hcyc]

/-- Witness for C9's amended statement at a concrete input. -/
theorem c9_throw_escapes_witness :
    getFollows codeConfig (mkInp c9Tape) = some (.thrown 1) :=
  c9_throw_escapes codeConfig (mkInp c9Tape) rfl (by decide) rfl (by decide) (by decide)

/-- C2 counterexample: no configured threshold is a ceiling on the cycle
count.  With the source's configuration (`maxTries = 60`, no-progress
limit 10), an input that produces one slightly longer snapshot every tenth
cycle keeps both stall counters below their limits for seventy cycles and
only terminates at cycle 81 — past every configured threshold.  The loop
has no independent cycle counter. -/
theorem c2_counterexample :
    getFollows codeConfig (mkInp c2Tape) =
        some (.ret ⟨List.replicate 8 ea, .noProgress, 81, true, []⟩) ∧
      codeConfig.maxTries < 81 ∧ codeConfig.noProgressLimit < 81 := by
  refine ⟨?_, by decide, by decide⟩
  exact @getFollows_of_small codeConfig (mkInp c2Tape) 100
    (.ret ⟨List.replicate 8 ea, .noProgress, 81, true, []⟩) (by decide) (by decide)

/-- C2 amended (proved): for every configuration of the thresholds and
every input tape, the harvester does reach a terminal state — but within
the *derived* bound `bigFuel cfg = (maxUsers + 1) * (noProgressLimit + 1)
+ 1` cycles, which comes from the no-progress counter and the size cap
jointly, not from any independent hard cycle ceiling. -/
theorem c2_bounded_termination (cfg : Config) (inp : FollowsInput) :
    ∃ r, getFollows cfg inp = some r ∧ cyclesOf r ≤ bigFuel cfg := by
  obtain ⟨r, hr⟩ := Option.isSome_iff_exists.mp (getFollows_isSome cfg inp)
  refine ⟨r, hr, ?_⟩
  unfold getFollows getFollowsWith at hr
  split_ifs at hr with h1 h2
  · obtain rfl : FollowsResult.ret ⟨[], .noLink, 0, false, []⟩ = r := by simpa using hr
    simp [cyclesOf]
  · obtain rfl : FollowsResult.ret ⟨[], .locatorNotFound, 0, true, locatorCandidates inp⟩ = r := by
      simpa using hr
    simp [cyclesOf]
  · have hb := runFrom_cycles_le cfg inp.tape (bigFuel cfg) 0 initSt r hr
    omega

/-- C4 (confirmed): starting from any loop state whose stall counters are
zero (i.e. right after a progress cycle, or at the start of the run), if
the next `N = noProgressLimit` cycles each extract exactly the current
collection again (an entry set identical to the previous cycle's), with no
end-of-content signal and the size cap not reached, then the run terminates
by the no-progress return at exactly cycle `i + N` — not earlier and not
later — returning the unchanged collection.  (In the source `N = 10`,
`noProgressTries >= 10`, line 324.) -/
theorem c4_stall_exactly (cfg : Config) (tape : Nat → CycleInput) (i : Nat)
    (st : HState) (fuel : Nat)
    (hinv : st.allUsers.length = st.lastCount)
    (hnp0 : st.noProgressTries = 0) (hsc0 : st.sameCountTries = 0)
    (hpos : 1 ≤ cfg.noProgressLimit) (hNM : cfg.noProgressLimit ≤ cfg.maxTries)
    (hfuel : cfg.noProgressLimit ≤ fuel)
    (hcap : st.lastCount < cfg.maxUsers) (hre : st.reachedEnd = false)
    (hstall : ∀ k, k < cfg.noProgressLimit →
      (tape (i + k)).evalThrows = false ∧ (tape (i + k)).scrollBoxMissing = false ∧
        (tape (i + k)).atEnd = false ∧ (tape (i + k)).users = st.allUsers) :
    runFrom cfg tape fuel i st =
      some (.ret ⟨st.allUsers, .noProgress, i + cfg.noProgressLimit, true, []⟩) :=
  stall_run cfg tape st.allUsers cfg.noProgressLimit i st fuel rfl hinv
    (by omega) (by omega) hpos hfuel hcap hre hstall

/-- Witness for C4 at a concrete post-progress state and static tape. -/
theorem c4_stall_exactly_witness :
    runFrom codeConfig staticTape 20 1 ⟨[ea], 1, 0, 0, 1, false⟩ =
      some (.ret ⟨[ea], .noProgress, 11, true, []⟩) :=
  c4_stall_exactly codeConfig staticTape 1 ⟨[ea], 1, 0, 0, 1, false⟩ 20 rfl rfl rfl
    (by decide) (by decide) (by decide) (by decide) rfl
    (fun k _ => ⟨rfl, rfl, rfl, rfl⟩)

/-- C3 counterexample: on a view whose scroll offset never changes (all
cycles report the same `scrollTopAfter`) and which shows one fixed entry,
the harvester does **not** stop after 5 cycles in any no-scroll state — it
runs 11 cycles (1 progress + 10 no-progress) and exits through the
no-progress return.  The scroll-stall variables of lines 263-264 are never
read, so no distinct no-scroll termination exists. -/
theorem c3_counterexample :
    getFollows codeConfig (mkInp staticTape) =
        some (.ret ⟨[ea], .noProgress, 11, true, []⟩) ∧
      (fun k => ((mkInp staticTape).tape k).scrollTopAfter) = (fun _ => 7) ∧
      (11 : Nat) ≠ 5 := by
  refine ⟨?_, rfl, by decide⟩
  exact @getFollows_of_small codeConfig (mkInp staticTape) 20
    (.ret ⟨[ea], .noProgress, 11, true, []⟩) (by decide) (by decide)

/-- C3 amended (proved): on a completely static view (scroll offset never
advances, each cycle extracts the same non-empty list `A`, no end-of-list
signal), the harvester terminates through the **no-progress** return after
exactly `noProgressLimit + 1` cycles (one progress cycle plus
`noProgressLimit` stalled ones), returning `A` exactly as extracted — the
unchanged scroll offset plays no part in the decision. -/
theorem c3_static_view (cfg : Config) (inp : FollowsInput) (A : List Entry)
    (hlink : inp.linkMissing = false)
    (hloc : (locatorFindsIdx inp).isSome = true)
    (htape : ∀ k, inp.tape k =
      ⟨false, false, (inp.tape 0).scrollTopAfter, false, A⟩)
    (hA : 0 < A.length) (hcap : A.length < cfg.maxUsers)
    (hpos : 1 ≤ cfg.noProgressLimit) (hNM : cfg.noProgressLimit ≤ cfg.maxTries) :
    getFollows cfg inp =
      some (.ret ⟨A, .noProgress, cfg.noProgressLimit + 1, true, []⟩) := by
  unfold getFollows getFollowsWith
  rw [if_neg (show ¬ inp.linkMissing = true by simp [hlink])]
  obtain ⟨v, hv⟩ := Option.isSome_iff_exists.mp hloc
  rw [if_neg (show ¬ (locatorFindsIdx inp).isNone = true by rw [hv]; simp)]
  obtain ⟨f, hf⟩ : ∃ f, bigFuel cfg = f + 1 := ⟨bigFuel cfg - 1, by simp [bigFuel]⟩
  rw [hf, runFrom]
  have hg : loopGuard cfg initSt = none :=
    loopGuard_eq_none.mpr
      ⟨by simp only [initSt]; omega, by simp only [initSt, List.length_nil]; omega,
        by simp [initSt]⟩
  rw [hg]
  have ht0 := htape 0
  have husers : (inp.tape 0).users = A := by rw [ht0]
  have hth : (inp.tape 0).evalThrows = false := by rw [ht0]
  have hsb : (inp.tape 0).scrollBoxMissing = false := by rw [ht0]
  have hatEnd : (inp.tape 0).atEnd = false := by rw [ht0]
  have hprog : initSt.lastCount < (inp.tape 0).users.length := by
    rw [husers]
    simpa [initSt] using hA
  have hprog2 : initSt.lastProgressCount < (inp.tape 0).users.length := by
    rw [husers]
    simpa [initSt] using hA
  have hnpz : (mergedState (inp.tape 0) initSt).noProgressTries = 0 := by
    rw [mergedState_noProgressTries, stepMerge_noProgressTries, if_pos hprog,
      if_pos hprog2]
  have hcyc : cycleStep cfg (inp.tape 0) initSt =
      .next (mergedState (inp.tape 0) initSt) := by
    unfold cycleStep
    rw [if_neg (show ¬ (inp.tape 0).evalThrows = true by simp [hth])]
    rw [if_neg (show ¬ (inp.tape 0).scrollBoxMissing = true by simp [hsb])]
    rw [if_neg (show ¬ cfg.noProgressLimit ≤
      (mergedState (inp.tape 0) initSt).noProgressTries by rw [hnpz]; omega)]
  rw [hcyc]
  have h2allUsers : (mergedState (inp.tape 0) initSt).allUsers = A := by
    rw [mergedState_allUsers, stepMerge_allUsers, if_pos hprog, husers]
  have h2lastCount : (mergedState (inp.tape 0) initSt).lastCount = A.length := by
    rw [mergedState_lastCount, stepMerge_lastCount, if_pos hprog, husers]
  have h2same : (mergedState (inp.tape 0) initSt).sameCountTries = 0 := by
    rw [mergedState_sameCountTries, stepMerge_sameCountTries, if_pos hprog]
  have h2re : (mergedState (inp.tape 0) initSt).reachedEnd = false := by
    rw [mergedState_reachedEnd, hatEnd]
    simp [initSt]
  have hfP : cfg.noProgressLimit ≤ f := by
    have hle : cfg.noProgressLimit + 1 ≤ (cfg.maxUsers + 1) * (cfg.noProgressLimit + 1) :=
      Nat.le_mul_of_pos_left (cfg.noProgressLimit + 1) (by omega)
    have hbf : bigFuel cfg = (cfg.maxUsers + 1) * (cfg.noProgressLimit + 1) + 1 := rfl
    omega
  have hrec := stall_run cfg inp.tape A cfg.noProgressLimit 1
    (mergedState (inp.tape 0) initSt) f
    h2allUsers (by rw [h2allUsers, h2lastCount])
    (by rw [hnpz]; omega)
    (by rw [h2same]; omega)
    hpos hfP
    (by rw [h2lastCount]; exact hcap)
    h2re
    (by
      intro k hk
      exact ⟨by rw [htape (1 + k)], by rw [htape (1 + k)], by rw [htape (1 + k)],
        by rw [htape (1 + k)]⟩)
  rw [show (1 : Nat) + cfg.noProgressLimit = cfg.noProgressLimit + 1 by omega] at hrec
  exact hrec

/-- Witness for C3's amended statement at a concrete static input. -/
theorem c3_static_view_witness :
    getFollows codeConfig (mkInp staticTape) =
      some (.ret ⟨[ea], .noProgress, codeConfig.noProgressLimit + 1, true, []⟩) :=
  c3_static_view codeConfig (mkInp staticTape) [ea] rfl (by decide)
    (fun _ => rfl) (by decide) (by decide) (by decide) (by decide)

/-- C1 counterexample: the returned list is **not** the identity-keyed
union of the cycle outputs.  With cycle 1 extracting `[ea]` and every later
cycle extracting `[eb]` (same count, different identity — the view scrolled
`ea` out and `eb` in), the run terminates after 11 cycles returning `[ea]`,
while the union of all cycle outputs keyed by identity is `[ea, eb]`.
No per-key merge exists in the code: `allUsers = users` (line 312) replaces
the snapshot wholesale. -/
theorem c1_counterexample :
    getFollows codeConfig (mkInp c1Tape) =
        some (.ret ⟨[ea], .noProgress, 11, true, []⟩) ∧
      unionByKey ((List.range 11).map fun k => ((mkInp c1Tape).tape k).users) =
        [ea, eb] ∧
      ([ea] : List Entry) ≠ [ea, eb] := by
  refine ⟨?_, by decide, by decide⟩
  exact @getFollows_of_small codeConfig (mkInp c1Tape) 20
    (.ret ⟨[ea], .noProgress, 11, true, []⟩) (by decide) (by decide)

/-- C1 amended (proved): whatever `getFollows` returns on a non-throwing
path is not a union at all — it is either empty or exactly the extraction
output of one single cycle of the run (the latest record-setting one; see
C10): entries seen only in other cycles are absent, and no identity-key
deduplication is ever applied to it. -/
theorem c1_single_snapshot (cfg : Config) (inp : FollowsInput) (o : FollowsOut)
    (h : getFollows cfg inp = some (.ret o)) :
    o.users = [] ∨ ∃ j, j < o.cycles ∧ o.users = (inp.tape j).users := by
  unfold getFollows getFollowsWith at h
  split_ifs at h with h1 h2
  · obtain rfl : (⟨[], .noLink, 0, false, []⟩ : FollowsOut) = o := by simpa using h
    left; rfl
  · obtain rfl : (⟨[], .locatorNotFound, 0, true, locatorCandidates inp⟩ : FollowsOut) = o := by
      simpa using h
    left; rfl
  · have hu := runFrom_ret_users cfg inp.tape (bigFuel cfg) 0 initSt o rfl rfl h
    rcases snapAt_cases inp.tape
        (if o.reason = .scrollLost then o.cycles - 1 else o.cycles) with hnil | ⟨j, hj, he⟩
    · left; rw [hu, hnil]
    · right
      refine ⟨j, ?_, by rw [hu, he]⟩
      have hle : (if o.reason = .scrollLost then o.cycles - 1 else o.cycles) ≤ o.cycles := by
        split_ifs <;> omega
      omega

/-- Witness for C1's amended statement at a concrete input. -/
theorem c1_single_snapshot_witness :
    (⟨[ea], .noProgress, 11, true, []⟩ : FollowsOut).users = [] ∨
      ∃ j, j < (⟨[ea], .noProgress, 11, true, []⟩ : FollowsOut).cycles ∧
        (⟨[ea], .noProgress, 11, true, []⟩ : FollowsOut).users =
          ((mkInp c1Tape).tape j).users :=
  c1_single_snapshot codeConfig (mkInp c1Tape) ⟨[ea], .noProgress, 11, true, []⟩
    (@getFollows_of_small codeConfig (mkInp c1Tape) 20
      (.ret ⟨[ea], .noProgress, 11, true, []⟩) (by decide) (by decide))

/-- C10 (confirmed): whatever a terminating, non-throwing run returns is
exactly `snapAt` — the extraction snapshot of the most recent cycle whose
extracted entry count strictly exceeded every earlier cycle's count (and
the empty list when no cycle ever set such a record).  On the scroll-lost
path the final cycle performed no extraction, hence the index
`cycles - 1`. -/
theorem c10_returns_record_snapshot (cfg : Config) (inp : FollowsInput)
    (o : FollowsOut) (h : getFollows cfg inp = some (.ret o)) :
    o.users =
      snapAt inp.tape (if o.reason = .scrollLost then o.cycles - 1 else o.cycles) := by
  unfold getFollows getFollowsWith at h
  split_ifs at h with h1 h2
  · obtain rfl : (⟨[], .noLink, 0, false, []⟩ : FollowsOut) = o := by simpa using h
    simp [snapAt]
  · obtain rfl : (⟨[], .locatorNotFound, 0, true, locatorCandidates inp⟩ : FollowsOut) = o := by
      simpa using h
    simp [snapAt]
  · exact runFrom_ret_users cfg inp.tape (bigFuel cfg) 0 initSt o rfl rfl h

/-- Witness for C10 at a concrete input: the run of `c1Tape` returns the
snapshot of its only record cycle (cycle 1). -/
theorem c10_returns_record_snapshot_witness :
    (⟨[ea], .noProgress, 11, true, []⟩ : FollowsOut).users =
      snapAt (mkInp c1Tape).tape
        (if (⟨[ea], .noProgress, 11, true, []⟩ : FollowsOut).reason = .scrollLost
          then (⟨[ea], .noProgress, 11, true, []⟩ : FollowsOut).cycles - 1
          else (⟨[ea], .noProgress, 11, true, []⟩ : FollowsOut).cycles) :=
  c10_returns_record_snapshot codeConfig (mkInp c1Tape)
    ⟨[ea], .noProgress, 11, true, []⟩
    (@getFollows_of_small codeConfig (mkInp c1Tape) 20
      (.ret ⟨[ea], .noProgress, 11, true, []⟩) (by decide) (by decide))

/-- C6 counterexample: a size-cap exit does not carry *exactly* the cap
number of entries.  With cap 3 (the cap is configuration per the spec) and
a first cycle extracting five distinct entries, the run exits with reason
`sizeCap` carrying all five — the collection overshoots the cap because
the whole snapshot is adopted before the cap is re-checked at the loop
head. -/
theorem c6_counterexample :
    getFollows cfg6 (mkInp c6Tape) =
        some (.ret ⟨(c6Tape 0).users, .sizeCap, 1, true, []⟩) ∧
      cfg6.maxUsers < (c6Tape 0).users.length := by
  refine ⟨?_, by decide⟩
  exact @getFollows_of_small cfg6 (mkInp c6Tape) 5
    (.ret ⟨(c6Tape 0).users, .sizeCap, 1, true, []⟩) (by decide) (by decide)

/-- C6 amended (proved): every size-cap exit carries **at least** the cap
number of entries (the loop stops as soon as the collection has reached
the cap), but possibly more and drawn from the final snapshot, not the
first `cap` entries in discovery order. -/
theorem c6_cap_lower_bound (cfg : Config) (inp : FollowsInput) (o : FollowsOut)
    (h : getFollows cfg inp = some (.ret o)) (hr : o.reason = .sizeCap) :
    cfg.maxUsers ≤ o.users.length := by
  unfold getFollows getFollowsWith at h
  split_ifs at h with h1 h2
  · obtain rfl : (⟨[], .noLink, 0, false, []⟩ : FollowsOut) = o := by simpa using h
    simp at hr
  · obtain rfl : (⟨[], .locatorNotFound, 0, true, locatorCandidates inp⟩ : FollowsOut) = o := by
      simpa using h
    simp at hr
  · exact runFrom_sizeCap cfg inp.tape (bigFuel cfg) 0 initSt o h hr

/-- Witness for C6's amended statement at a concrete input. -/
theorem c6_cap_lower_bound_witness :
    cfg6.maxUsers ≤ (⟨(c6Tape 0).users, .sizeCap, 1, true, []⟩ : FollowsOut).users.length :=
  c6_cap_lower_bound cfg6 (mkInp c6Tape) ⟨(c6Tape 0).users, .sizeCap, 1, true, []⟩
    (@getFollows_of_small cfg6 (mkInp c6Tape) 5
      (.ret ⟨(c6Tape 0).users, .sizeCap, 1, true, []⟩) (by decide) (by decide))
    rfl

end Scraper
